import Mathlib

/-!
Verification of the GitHunter username-availability hunter
(`src/unnamed/part_000`, a single React component).

Modelling conventions:
* JavaScript strings are modelled as `List Char`.
* `Math.random()`-driven character picks are modelled by an injected index
  oracle `rand : Nat → Nat`; the source computes
  `Math.floor(Math.random() * availableChars.length)`, always an index
  `< availableChars.length`, which the model realises as `rand i % length`.
* React component state (`useState`) is a record (`AppState`); the async
  hunt loop's reads of the `isThrottled` binding go through the value the
  closure captured when `huntUsernames` was invoked (per-render `const`
  semantics), which the model passes as the fixed parameter `thr`, while
  `setIsThrottled` updates the `isThrottled` field of the state record.
* Wall-clock time is a `Nat` counter of milliseconds advanced by the
  `delay` calls and by the duration of each `fetch`.
* The `AbortController` signal is `sigAbortedAt`: the signal reads true
  once the loop self-aborts or once the caller's stop time `abortAt` has
  been reached.
-/

namespace GitHunter

/-- `"abcdefghijklmnopqrstuvwxyz"` — the base letter set of `generateUsername`
(line 55 of the source). -/
def letters : List Char := "abcdefghijklmnopqrstuvwxyz".data

/-- `"0123456789"` — the digit pool `numbersToInclude` starts from (line 57). -/
def digits : List Char := "0123456789".data

/-- The sentinel string returned by `generateUsername` when the alphabet is
empty (line 74). -/
def errorNoChars : List Char := "ERROR_NO_CHARS".data

/-- JavaScript `String.prototype.trim`: drop whitespace from both ends. -/
def jsTrim (l : List Char) : List Char :=
  ((l.dropWhile Char.isWhitespace).reverse.dropWhile Char.isWhitespace).reverse

/-- JavaScript `s.split(',')`: split on every comma; `"".split(',') = [""]`. -/
def splitOnComma : List Char → List (List Char)
  | [] => [[]]
  | c :: cs =>
    if c = ',' then [] :: splitOnComma cs
    else
      match splitOnComma cs with
      | [] => [[c]]
      | t :: ts => (c :: t) :: ts

/-- The token filter of line 62: `d.length === 1 && "0123456789".includes(d)`.
For a one-character string, `includes` is membership of that character in the
digit string. -/
def isDigitToken (t : List Char) : Bool :=
  t.length == 1 && t.all (fun c => digits.contains c)

/-- Lines 59–62: split the raw exclusion input on commas, trim each token,
keep only single-character digit tokens. -/
def parsedExcludedDigits (s : List Char) : List (List Char) :=
  ((splitOnComma s).map jsTrim).filter isDigitToken

/-- Line 65: `numbersToInclude.replace(new RegExp(digit, 'g'), "")` for a
one-character token removes every occurrence of that character; tokens of any
other length would be left untouched (the filter guarantees length one). -/
def removeToken (str : List Char) (t : List Char) : List Char :=
  match t with
  | [d] => str.filter (fun c => c ≠ d)
  | _ => str

/-- Lines 57–67: the digit portion of the working set.  The exclusion
machinery only runs when the raw input does not trim to the empty string
(line 58); otherwise all ten digits are kept. -/
def numbersToInclude (excl : List Char) : List Char :=
  if jsTrim excl = [] then digits
  else (parsedExcludedDigits excl).foldl removeToken digits

/-- Lines 55–69: `availableChars` starts as the lowercase letters and, unless
`excludeNumbers` is set, appends the surviving digits. -/
def deriveAlphabet (excludeNumbers : Bool) (excl : List Char) : List Char :=
  if excludeNumbers then letters else letters ++ numbersToInclude excl

/-- Lines 54–82: `generateUsername`.  Returns the sentinel when the derived
alphabet is empty (that branch also emits an error log in the source; the
branch is proved unreachable below), otherwise builds a string of `length`
characters picked by the injected randomness oracle.  `charAt` of an
in-range index is `List.getD` with an irrelevant default. -/
def generateUsername (excludeNumbers : Bool) (excl : List Char) (length : Nat)
    (rand : Nat → Nat) : List Char :=
  let availableChars := deriveAlphabet excludeNumbers excl
  if availableChars.length = 0 then errorNoChars
  else (List.range length).map (fun i => availableChars.getD (rand i % availableChars.length) 'a')

/-- `joinComma ts` is `ts.join(',')`: the comma-separated rendering of a token
list, used to state that malformed tokens are ignored (claim C10). -/
def joinComma : List (List Char) → List Char
  | [] => []
  | t :: ts =>
    match ts with
    | [] => t
    | _ :: _ => t ++ ',' :: joinComma ts

/-! ## The hunter: data model -/

/-- The severity tags of `LogMessage.type` (lines 13–17). -/
inductive LogType
  | info
  | success
  | error
  | accent
  | muted
deriving DecidableEq, Repr

/-- A log entry; the source also carries a random UUID `id` used only as a
React list key, which the model drops. -/
structure LogMessage where
  text : List Char
  type : LogType
deriving DecidableEq, Repr

/-- An `AvailableUsername` record (lines 19–22).  The source stores the
timestamp as a `date-fns`-formatted wall-clock string; the model stores the
model-clock value (milliseconds) at the moment of the append. -/
structure AvailableUsername where
  username : List Char
  timestamp : Nat
deriving DecidableEq, Repr

/-- The five-way result of `checkUsernameAvailability` (line 86). -/
inductive Outcome
  | available
  | taken
  | throttled
  | error
  | aborted
deriving DecidableEq, Repr

/-- What the `fetch` of one check delivers: a completed HTTP response with a
status code, an `AbortError` rejection, or any other rejection carrying a
message. -/
inductive FetchResult
  | status (code : Nat)
  | abortError
  | failure (msg : List Char)
deriving DecidableEq, Repr

/-- The spec's `Stats` counters (lines 36–40). -/
structure Stats where
  attempts : Nat
  available : Nat
  taken : Nat
deriving DecidableEq, Repr

/-- The component state plus the hunt loop's locals and the model clock.
`curAttempts`/`curAvailable`/`curTaken` are the loop locals
`currentAttempts`/`currentAvailable`/`currentTaken` (lines 114–116); `stats`
is the React state they are copied into by `setStats`.  `aborted` is
`abortControllerRef.current.signal.aborted` as far as it is set from inside
the model (self-abort or the stop handler); `time` is the model clock.
`checkTimes` is ghost instrumentation only: the model-clock value at each
emission of a `Checking: …` event, not a field of the source state. -/
structure AppState where
  stats : Stats
  availableUsernames : List AvailableUsername
  logMessages : List LogMessage
  isThrottled : Bool
  isHunting : Bool
  isLoading : Bool
  aborted : Bool
  time : Nat
  curAttempts : Nat
  curAvailable : Nat
  curTaken : Nat
  checkTimes : List Nat
deriving DecidableEq, Repr

/-- `addLog` (lines 46–48): append one entry to the log list. -/
def addLog (st : AppState) (text : List Char) (type : LogType) : AppState :=
  { st with logMessages := st.logMessages ++ [⟨text, type⟩] }

/-- `setStats` at lines 139 and 171: copy the loop locals into React state. -/
def setStats (st : AppState) : AppState :=
  { st with stats := ⟨st.curAttempts, st.curAvailable, st.curTaken⟩ }

/-- The abort signal as observed at self-abort flag `ab` and model time `t`:
the caller's stop (modelled as an optional stop time `abortAt`) has occurred
iff `abortAt` has been reached. -/
def sigAbortedAt (abortAt : Option Nat) (ab : Bool) (t : Nat) : Bool :=
  ab || (match abortAt with | none => false | some τ => decide (τ ≤ t))

/-- `signal.aborted` for a state. -/
def sigAborted (abortAt : Option Nat) (st : AppState) : Bool :=
  sigAbortedAt abortAt st.aborted st.time

/-! ## Log texts of the hunter -/

def startText (len : Nat) : List Char :=
  "Starting hunt for usernames of length ".data ++ (toString len).data ++ "...".data

def pausingText : List Char := "Rate limit likely hit. Pausing for 60 seconds...".data

def resumingText : List Char := "Resuming hunt...".data

def stopNoCharsText : List Char :=
  "Stopping hunt: No characters available for generation based on current settings.".data

def checkingText (u : List Char) : List Char := "Checking: ".data ++ u

def abortedText : List Char := "Hunt aborted by user.".data

def availableText (u : List Char) : List Char := "AVAILABLE: ".data ++ u

def unexpectedStatusText (code : Nat) (u : List Char) : List Char :=
  "Unexpected status code ".data ++ (toString code).data ++ " for ".data ++ u

def requestFailedText (u : List Char) (msg : List Char) : List Char :=
  "Request failed for ".data ++ u ++ ": ".data ++ msg

def finishedText : List Char := "Hunt finished or stopped.".data

def stoppedText : List Char := "Hunting stopped by user.".data

/-! ## The hunter: operations -/

/-- Lines 86–101, `checkUsernameAvailability`: classify what the `fetch`
delivered, together with the log entries the function itself emits (the
unexpected-status and request-failed error logs). -/
def checkUsernameAvailability (username : List Char) (r : FetchResult) :
    Outcome × List LogMessage :=
  match r with
  | .status code =>
    if code = 404 then (.available, [])
    else if code = 200 then (.taken, [])
    else if code = 403 ∨ code = 429 then (.throttled, [])
    else (.error, [⟨unexpectedStatusText code username, .error⟩])
  | .abortError => (.aborted, [])
  | .failure msg => (.error, [⟨requestFailedText username msg, .error⟩])

/-- The configuration captured by a hunt: the generator settings and the
requested length. -/
structure HuntConfig where
  excludeNumbers : Bool
  excl : List Char
  len : Nat

/-- The external inputs consumed by one loop iteration: the randomness for
`generateUsername`, what the `fetch` delivers, and how long it takes. -/
structure IterationInput where
  rand : Nat → Nat
  fetch : FetchResult
  fetchMs : Nat

/-- Lines 120–127: the body of `if (isThrottled)`.  The guard `thr` is the
`isThrottled` value the async closure captured when the hunt started (React
state is a per-render `const`; `setIsThrottled` never changes the captured
binding).  The branch logs, sleeps 60 s, clears the React flag, logs again. -/
def throttlePause (thr : Bool) (st : AppState) : AppState :=
  if thr then
    let st := addLog st pausingText .error
    let st := { st with time := st.time + 60000 }
    let st := { st with isThrottled := false }
    addLog st resumingText .info
  else st

/-- Lines 148–170: the `switch (result)` over the classification. -/
def processOutcome (outcome : Outcome) (username : List Char) (st : AppState) : AppState :=
  match outcome with
  | .available =>
    let st := { st with curAvailable := st.curAvailable + 1 }
    let st := { st with availableUsernames :=
                  st.availableUsernames ++ [⟨username, st.time⟩] }
    addLog st (availableText username) .accent
  | .taken => { st with curTaken := st.curTaken + 1 }
  | .throttled => { st with isThrottled := true }
  | .error => { st with time := st.time + 5000 }
  | .aborted => st

/-- Lines 137–139: increment `currentAttempts`, emit the `Checking:` log
(recording the model time as ghost data), and publish the stats. -/
def preCheck (username : List Char) (st : AppState) : AppState :=
  let st := { st with curAttempts := st.curAttempts + 1 }
  let st := addLog st (checkingText username) .muted
  let st := { st with checkTimes := st.checkTimes ++ [st.time] }
  setStats st

/-- The effect of awaiting the remote call: time advances by its duration
and the classifier's own log entries land in the log. -/
def afterFetch (out : Outcome × List LogMessage) (ms : Nat) (st : AppState) :
    AppState :=
  { st with time := st.time + ms, logMessages := st.logMessages ++ out.2 }

/-- One iteration of the `while (!signal.aborted)` body (lines 120–173),
entered with the loop condition already checked.  Returns the next state and
whether the loop continues (`false` = a `break` was taken). -/
def huntIter (thr : Bool) (cfg : HuntConfig) (abortAt : Option Nat)
    (st : AppState) (inp : IterationInput) : AppState × Bool :=
  let st1 := throttlePause thr st
  if thr && sigAborted abortAt st1 then (st1, false)
  else
    let username := generateUsername cfg.excludeNumbers cfg.excl cfg.len inp.rand
    if username = errorNoChars then
      (({ addLog st1 stopNoCharsText .error with aborted := true }), false)
    else
      let st2 := preCheck username st1
      let out := checkUsernameAvailability username inp.fetch
      let st3 := afterFetch out inp.fetchMs st2
      if sigAborted abortAt st3 then (addLog st3 abortedText .info, false)
      else
        let st4 := setStats (processOutcome out.1 username st3)
        ({ st4 with time := st4.time + 1500 }, true)

/-- The `while (!signal.aborted)` loop (line 119), observed for as many
iterations as the script supplies inputs. -/
def huntLoop (thr : Bool) (cfg : HuntConfig) (abortAt : Option Nat) :
    AppState → List IterationInput → AppState
  | st, [] => st
  | st, inp :: rest =>
    if sigAborted abortAt st then st
    else
      match huntIter thr cfg abortAt st inp with
      | (st2, true) => huntLoop thr cfg abortAt st2 rest
      | (st2, false) => st2

/-- Lines 104–116: the initialisation of `huntUsernames` — set the busy
flags, clear the log (but not `availableUsernames`), zero the stats and the
loop locals, emit the start log, and install a fresh `AbortController`
(clearing any previous abort).  `checkTimes` is ghost and reset per hunt. -/
def huntInit (cfg : HuntConfig) (st : AppState) : AppState :=
  let st := { st with isLoading := true, isHunting := true,
                      logMessages := [], stats := ⟨0, 0, 0⟩ }
  let st := addLog st (startText cfg.len) .info
  { st with aborted := false, curAttempts := 0, curAvailable := 0, curTaken := 0,
            checkTimes := [] }

/-- Lines 179–185: the `finally` block — clear the busy flags and, when the
signal never fired, emit the finished log. -/
def huntFinally (abortAt : Option Nat) (st : AppState) : AppState :=
  let st := { st with isHunting := false, isLoading := false }
  if sigAborted abortAt st then st else addLog st finishedText .info

/-- Lines 103–186, `huntUsernames`, run against a finite script of iteration
inputs.  The captured throttle guard `thr` is the `isThrottled` value at the
moment of the call, i.e. `prior.isThrottled`. -/
def huntUsernames (cfg : HuntConfig) (abortAt : Option Nat)
    (prior : AppState) (script : List IterationInput) : AppState :=
  huntFinally abortAt (huntLoop prior.isThrottled cfg abortAt (huntInit cfg prior) script)

/-- Lines 222–230, `handleStopHunting`: fire the abort signal, clear the
busy and throttle flags, and append the stopped log. -/
def handleStopHunting (st : AppState) : AppState :=
  let st := { st with aborted := true }
  let st := { st with isHunting := false, isLoading := false, isThrottled := false }
  addLog st stoppedText .info

/-- The three possible results of the pre-start validation. -/
inductive StartOutcome
  | invalidLength
  | noChars
  | started (len : Nat)
deriving DecidableEq, Repr

/-- Lines 188–220, `handleStartHunting`: the length-field parse is modelled
as an optional natural (`none` = `parseInt` returned `NaN`).  The character
set validated at lines 196–209 is the same derivation as in
`generateUsername` (the source duplicates the block verbatim), so the model
reuses `deriveAlphabet`. -/
def handleStartHunting (parsedLen : Option Nat) (excludeNumbers : Bool)
    (excl : List Char) : StartOutcome :=
  match parsedLen with
  | none => .invalidLength
  | some len =>
    if len < 3 || 39 < len then .invalidLength
    else if (deriveAlphabet excludeNumbers excl).length = 0 then .noChars
    else .started len

/-! ## Generator lemmas -/

/-- One removal step filters out exactly the characters whose singleton
string equals the token (non-singleton tokens remove nothing). -/
theorem removeToken_eq (str : List Char) (t : List Char) :
    removeToken str t = str.filter (fun c => decide (t ≠ [c])) := by
  rcases t with _ | ⟨d, _ | ⟨c2, rest⟩⟩
  · show str = str.filter _
    symm
    apply List.filter_eq_self.mpr
    intro a _
    exact decide_eq_true (fun h => List.noConfusion h)
  · show str.filter _ = str.filter _
    apply List.filter_congr
    intro a _
    simp only [ne_eq, decide_not, List.cons.injEq, and_true]
    exact congrArg (fun b => !b) (decide_eq_decide.mpr eq_comm)
  · show str = str.filter _
    symm
    apply List.filter_eq_self.mpr
    intro a _
    refine decide_eq_true (fun h => ?_)
    injection h with h1 h2
    exact List.noConfusion h2

/-- Folding the digit-removal step over a token list filters out exactly the
characters whose singleton string occurs among the tokens. -/
theorem foldl_removeToken (ts : List (List Char)) (str : List Char) :
    ts.foldl removeToken str = str.filter (fun c => decide (∀ t ∈ ts, t ≠ [c])) := by
  induction ts generalizing str with
  | nil => simp
  | cons t ts ih =>
    rw [List.foldl_cons, ih, removeToken_eq, List.filter_filter]
    apply List.filter_congr
    intro a _
    rw [Bool.eq_iff_iff]
    simp only [Bool.and_eq_true, decide_eq_true_eq, List.forall_mem_cons]
    exact and_comm

/-- If the raw input trims to the empty string, every character of it is
whitespace. -/
theorem jsTrim_eq_nil_all_ws (l : List Char) (h : jsTrim l = []) :
    ∀ c ∈ l, c.isWhitespace := by
  unfold jsTrim at h
  rw [List.reverse_eq_nil_iff, List.dropWhile_eq_nil_iff] at h
  have hdrop : ∀ c ∈ l.dropWhile Char.isWhitespace, c.isWhitespace := by
    intro c hc
    exact h c (List.mem_reverse.mpr hc)
  intro c hc
  rw [← List.takeWhile_append_dropWhile (p := Char.isWhitespace) (l := l)] at hc
  rcases List.mem_append.mp hc with hc | hc
  · exact List.mem_takeWhile_imp hc
  · exact hdrop c hc

/-- A comma-free string splits into itself alone. -/
theorem splitOnComma_no_comma (l : List Char) (h : ',' ∉ l) : splitOnComma l = [l] := by
  induction l with
  | nil => rfl
  | cons c cs ih =>
    have hc : c ≠ ',' := fun hcc => h (hcc ▸ List.mem_cons_self c cs)
    have hcs : ',' ∉ cs := fun hm => h (List.mem_cons_of_mem _ hm)
    rw [splitOnComma, if_neg hc, ih hcs]

/-- An input that trims to the empty string contributes no exclusions. -/
theorem parsedExcludedDigits_of_trim_nil (excl : List Char) (h : jsTrim excl = []) :
    parsedExcludedDigits excl = [] := by
  have hws := jsTrim_eq_nil_all_ws excl h
  have hnc : ',' ∉ excl := by
    intro hm
    have := hws ',' hm
    simp [Char.isWhitespace] at this
  rw [parsedExcludedDigits, splitOnComma_no_comma excl hnc]
  simp [isDigitToken, h]

/-- Characterisation of the digit portion of the working set: a digit
survives iff its singleton string is not among the parsed exclusions. -/
theorem numbersToInclude_eq (excl : List Char) :
    numbersToInclude excl
      = digits.filter (fun c => decide ([c] ∉ parsedExcludedDigits excl)) := by
  unfold numbersToInclude
  split
  · rename_i htrim
    rw [parsedExcludedDigits_of_trim_nil excl htrim]
    simp
  · rw [foldl_removeToken]
    apply List.filter_congr
    intro a _
    simp only [decide_eq_decide]
    constructor
    · intro h hmem
      exact h [a] hmem rfl
    · intro h t ht heq
      rw [heq] at ht
      exact h ht

/-- Reflexivity of the list-extension order `<+:`. -/
theorem isPre_refl {α : Type} (l : List α) : l <+: l := ⟨[], List.append_nil l⟩

/-- A list extends to its append. -/
theorem isPre_append {α : Type} (l₁ l₂ : List α) : l₁ <+: l₁ ++ l₂ := ⟨l₂, rfl⟩

/-- The letters are always a prefix of the derived alphabet. -/
theorem letters_isPre (b : Bool) (excl : List Char) :
    letters <+: deriveAlphabet b excl := by
  unfold deriveAlphabet
  split
  · exact isPre_refl _
  · exact isPre_append _ _

/-- The derived alphabet is never empty (it has at least the 26 letters). -/
theorem deriveAlphabet_length_pos (b : Bool) (excl : List Char) :
    0 < (deriveAlphabet b excl).length := by
  have h := (letters_isPre b excl).length_le
  have : letters.length = 26 := by decide
  omega

/-- Every character of the derived alphabet is a letter or a digit. -/
theorem mem_deriveAlphabet (b : Bool) (excl : List Char) (c : Char)
    (h : c ∈ deriveAlphabet b excl) : c ∈ letters ∨ c ∈ digits := by
  unfold deriveAlphabet at h
  split at h
  · exact Or.inl h
  · rcases List.mem_append.mp h with h | h
    · exact Or.inl h
    · right
      rw [numbersToInclude_eq] at h
      exact List.mem_of_mem_filter h

/-- Since the alphabet is never empty, generation never takes the sentinel
branch. -/
theorem generateUsername_eq (b : Bool) (excl : List Char) (len : Nat)
    (rand : Nat → Nat) :
    generateUsername b excl len rand
      = (List.range len).map (fun i =>
          (deriveAlphabet b excl).getD
            (rand i % (deriveAlphabet b excl).length) 'a') := by
  unfold generateUsername
  rw [if_neg (Nat.pos_iff_ne_zero.mp (deriveAlphabet_length_pos b excl))]

/-- The generated string has exactly the requested length. -/
theorem generateUsername_length (b : Bool) (excl : List Char) (len : Nat)
    (rand : Nat → Nat) : (generateUsername b excl len rand).length = len := by
  rw [generateUsername_eq]
  simp

/-- Every character of the generated string is drawn from the derived
alphabet. -/
theorem mem_generateUsername (b : Bool) (excl : List Char) (len : Nat)
    (rand : Nat → Nat) (c : Char) (h : c ∈ generateUsername b excl len rand) :
    c ∈ deriveAlphabet b excl := by
  rw [generateUsername_eq] at h
  rcases List.mem_map.mp h with ⟨i, _, rfl⟩
  have hlt : rand i % (deriveAlphabet b excl).length < (deriveAlphabet b excl).length :=
    Nat.mod_lt _ (deriveAlphabet_length_pos b excl)
  rw [List.getD_eq_get _ _ hlt]
  exact List.get_mem _ _ _

/-- `generateUsername` never returns the `ERROR_NO_CHARS` sentinel: the
sentinel branch is unreachable and the sentinel contains characters outside
every derivable alphabet. -/
theorem generateUsername_ne_error (b : Bool) (excl : List Char) (len : Nat)
    (rand : Nat → Nat) : generateUsername b excl len rand ≠ errorNoChars := by
  intro h
  have hE : ('E' : Char) ∈ errorNoChars := by decide
  rw [← h] at hE
  have hmem := mem_deriveAlphabet b excl 'E' (mem_generateUsername b excl len rand 'E' hE)
  have h1 : ('E' : Char) ∉ letters := by decide
  have h2 : ('E' : Char) ∉ digits := by decide
  rcases hmem with h | h
  · exact h1 h
  · exact h2 h

/-! ## Token-level lemmas for C10 -/

/-- `splitOnComma` never returns the empty list. -/
theorem splitOnComma_ne_nil (l : List Char) : splitOnComma l ≠ [] := by
  cases l with
  | nil => exact fun h => List.noConfusion h
  | cons c cs =>
    unfold splitOnComma
    split
    · exact fun h => List.noConfusion h
    · split
      · exact fun h => List.noConfusion h
      · exact fun h => List.noConfusion h

/-- Splitting a string that starts with a comma-free block followed by a
comma splits off exactly that block. -/
theorem splitOnComma_append (t rest : List Char) (h : ',' ∉ t) :
    splitOnComma (t ++ ',' :: rest) = t :: splitOnComma rest := by
  induction t with
  | nil => simp [splitOnComma]
  | cons c cs ih =>
    have hc : c ≠ ',' := fun hcc => h (hcc ▸ List.mem_cons_self c cs)
    have hcs : ',' ∉ cs := fun hm => h (List.mem_cons_of_mem _ hm)
    rw [List.cons_append, splitOnComma, if_neg hc, ih hcs]

/-- Splitting the comma-join of a non-empty list of comma-free tokens
recovers the tokens. -/
theorem splitOnComma_joinComma (ts : List (List Char)) (hne : ts ≠ [])
    (hc : ∀ t ∈ ts, ',' ∉ t) : splitOnComma (joinComma ts) = ts := by
  induction ts with
  | nil => exact absurd rfl hne
  | cons t ts ih =>
    cases ts with
    | nil =>
      show splitOnComma t = [t]
      exact splitOnComma_no_comma t (hc t (List.mem_cons_self t []))
    | cons t2 ts2 =>
      show splitOnComma (t ++ ',' :: joinComma (t2 :: ts2)) = t :: t2 :: ts2
      rw [splitOnComma_append t _ (hc t (List.mem_cons_self t _))]
      rw [ih (fun h => List.noConfusion h) (fun u hu => hc u (List.mem_cons_of_mem _ hu))]

/-- A well-formed digit token is unchanged by trimming. -/
theorem jsTrim_digit_token (t : List Char) (h : isDigitToken t = true) :
    jsTrim t = t := by
  rw [isDigitToken, Bool.and_eq_true] at h
  obtain ⟨d, rfl⟩ := List.length_eq_one.mp (by simpa using h.1)
  have hd : d ∈ digits := by
    have := List.all_eq_true.mp h.2 d (List.mem_cons_self d [])
    simpa [List.contains] using this
  have hws : ¬ d.isWhitespace := by
    have : ∀ x ∈ digits, ¬ x.isWhitespace := by decide
    exact this d hd
  simp [jsTrim, List.dropWhile, hws]

/-- A well-formed digit token contains no comma. -/
theorem comma_not_mem_digit_token (t : List Char) (h : isDigitToken t = true) :
    ',' ∉ t := by
  intro hm
  rw [isDigitToken, Bool.and_eq_true] at h
  have := List.all_eq_true.mp h.2 ',' hm
  simp [List.contains, digits] at this

/-- Parsing the comma-join of the parsed exclusions is a no-op: the parse
retains exactly the well-formed tokens. -/
theorem parsedExcludedDigits_joinComma (s : List Char) :
    parsedExcludedDigits (joinComma (parsedExcludedDigits s))
      = parsedExcludedDigits s := by
  cases hp : parsedExcludedDigits s with
  | nil => decide
  | cons t ts =>
    have hall : ∀ u ∈ t :: ts, isDigitToken u = true := by
      rw [← hp]
      intro u hu
      exact List.of_mem_filter hu
    have hcomma : ∀ u ∈ t :: ts, ',' ∉ u :=
      fun u hu => comma_not_mem_digit_token u (hall u hu)
    rw [parsedExcludedDigits,
        splitOnComma_joinComma _ (fun h => List.noConfusion h) hcomma]
    have hmap : (t :: ts).map jsTrim = t :: ts := by
      have := List.map_congr_left (l := t :: ts) (f := jsTrim) (g := id)
        (fun u hu => jsTrim_digit_token u (hall u hu))
      simpa using this
    rw [hmap]
    exact List.filter_eq_self.mpr hall

/-! ## Claim theorems for the generator -/

/-- **C5.** For every `length ≥ 1` and every configuration whose derived
alphabet is non-empty, `generateUsername` returns a string of exactly
`length` characters, each a member of the derived alphabet. -/
theorem c5_generate_length_and_alphabet (b : Bool) (excl : List Char)
    (len : Nat) (rand : Nat → Nat) (hlen : 1 ≤ len)
    (halph : deriveAlphabet b excl ≠ []) :
    (generateUsername b excl len rand).length = len ∧
      ∀ c ∈ generateUsername b excl len rand, c ∈ deriveAlphabet b excl :=
  ⟨generateUsername_length b excl len rand,
   fun c hc => mem_generateUsername b excl len rand c hc⟩

theorem c5_witness :
    1 ≤ 3 ∧ deriveAlphabet false [] ≠ [] ∧
      ((generateUsername false [] 3 (fun _ => 0)).length = 3 ∧
        ∀ c ∈ generateUsername false [] 3 (fun _ => 0),
          c ∈ deriveAlphabet false []) :=
  ⟨by decide, by decide,
   c5_generate_length_and_alphabet false [] 3 (fun _ => 0) (by decide) (by decide)⟩

/-- **C6.** If `excludeAllDigits` is true then no generated candidate
contains any digit character, for every `excludedDigits` input and length. -/
theorem c6_exclude_all_digits (excl : List Char) (len : Nat)
    (rand : Nat → Nat) (c : Char)
    (hc : c ∈ generateUsername true excl len rand) : c ∉ digits := by
  have hmem := mem_generateUsername true excl len rand c hc
  have hlet : c ∈ letters := by
    rw [show deriveAlphabet true excl = letters from rfl] at hmem
    exact hmem
  have hdisj : ∀ x ∈ letters, x ∉ digits := by decide
  exact hdisj c hlet

theorem c6_witness : ('a' : Char) ∉ digits :=
  c6_exclude_all_digits [] 3 (fun _ => 0) 'a' (by decide)

/-- **C7.** Alphabet derivation is commutative with respect to the order and
grouping of digit exclusions: two exclusion inputs whose parsed digit-token
sets coincide derive the same working character set (and hence the same
generated candidates for the same randomness). -/
theorem c7_exclusion_order_irrelevant (b : Bool) (l1 l2 : List Char)
    (h12 : ∀ t ∈ parsedExcludedDigits l1, t ∈ parsedExcludedDigits l2)
    (h21 : ∀ t ∈ parsedExcludedDigits l2, t ∈ parsedExcludedDigits l1) :
    deriveAlphabet b l1 = deriveAlphabet b l2 ∧
      ∀ (len : Nat) (rand : Nat → Nat),
        generateUsername b l1 len rand = generateUsername b l2 len rand := by
  have halph : deriveAlphabet b l1 = deriveAlphabet b l2 := by
    cases b with
    | true => rfl
    | false =>
      show letters ++ numbersToInclude l1 = letters ++ numbersToInclude l2
      rw [numbersToInclude_eq, numbersToInclude_eq]
      congr 1
      apply List.filter_congr
      intro a _
      rw [decide_eq_decide]
      constructor
      · exact fun h hm => h (h21 [a] hm)
      · exact fun h hm => h (h12 [a] hm)
  refine ⟨halph, fun len rand => ?_⟩
  rw [generateUsername_eq, generateUsername_eq, halph]

theorem c7_witness :
    (∀ t ∈ parsedExcludedDigits "1,3,5".data, t ∈ parsedExcludedDigits "5,3,1".data) ∧
      (∀ t ∈ parsedExcludedDigits "5,3,1".data, t ∈ parsedExcludedDigits "1,3,5".data) ∧
      (deriveAlphabet false "1,3,5".data = deriveAlphabet false "5,3,1".data ∧
        ∀ (len : Nat) (rand : Nat → Nat),
          generateUsername false "1,3,5".data len rand
            = generateUsername false "5,3,1".data len rand) :=
  ⟨by decide, by decide,
   c7_exclusion_order_irrelevant false "1,3,5".data "5,3,1".data (by decide) (by decide)⟩

/-- **C9.** The derived alphabet always contains the 26 lowercase letters and
is never empty, so the pre-start configuration-error refusal of
`handleStartHunting` and the `ERROR_NO_CHARS` sentinel path of
`generateUsername` are unreachable. -/
theorem c9_empty_alphabet_unreachable (b : Bool) (excl : List Char)
    (len : Nat) (rand : Nat → Nat) (parsedLen : Option Nat) :
    letters <+: deriveAlphabet b excl ∧
      deriveAlphabet b excl ≠ [] ∧
      handleStartHunting parsedLen b excl ≠ StartOutcome.noChars ∧
      generateUsername b excl len rand ≠ errorNoChars := by
  refine ⟨letters_isPre b excl, ?_, ?_, generateUsername_ne_error b excl len rand⟩
  · intro h
    have hpos := deriveAlphabet_length_pos b excl
    rw [h] at hpos
    exact Nat.lt_irrefl 0 hpos
  · unfold handleStartHunting
    cases parsedLen with
    | none => exact fun h => StartOutcome.noConfusion h
    | some len' =>
      simp only
      split
      · exact fun h => StartOutcome.noConfusion h
      · rw [if_neg (Nat.pos_iff_ne_zero.mp (deriveAlphabet_length_pos b excl))]
        exact fun h => StartOutcome.noConfusion h

/-- **C10.** Only comma-separated tokens that trim to a single digit are
treated as exclusions: every parsed exclusion is a well-formed digit token,
and derivation/generation from the raw input coincide with derivation and
generation from the comma-join of only its well-formed tokens. -/
theorem c10_malformed_tokens_ignored (b : Bool) (s : List Char) (len : Nat)
    (rand : Nat → Nat) :
    (∀ t ∈ parsedExcludedDigits s, isDigitToken t = true) ∧
      deriveAlphabet b s = deriveAlphabet b (joinComma (parsedExcludedDigits s)) ∧
      generateUsername b s len rand
        = generateUsername b (joinComma (parsedExcludedDigits s)) len rand := by
  have halph : deriveAlphabet b s
      = deriveAlphabet b (joinComma (parsedExcludedDigits s)) := by
    cases b with
    | true => rfl
    | false =>
      show letters ++ numbersToInclude s
        = letters ++ numbersToInclude (joinComma (parsedExcludedDigits s))
      rw [numbersToInclude_eq, numbersToInclude_eq, parsedExcludedDigits_joinComma]
  refine ⟨fun t ht => List.of_mem_filter ht, halph, ?_⟩
  rw [generateUsername_eq, generateUsername_eq, halph]

/-! ## Hunter lemmas -/

/-- The component state before anything has happened. -/
def initialState : AppState :=
  { stats := ⟨0, 0, 0⟩, availableUsernames := [], logMessages := [],
    isThrottled := false, isHunting := false, isLoading := false,
    aborted := false, time := 0, curAttempts := 0, curAvailable := 0,
    curTaken := 0, checkTimes := [] }

theorem addLog_availableUsernames (st : AppState) (t : List Char) (ty : LogType) :
    (addLog st t ty).availableUsernames = st.availableUsernames := rfl

theorem setStats_availableUsernames (st : AppState) :
    (setStats st).availableUsernames = st.availableUsernames := rfl

theorem preCheck_availableUsernames (u : List Char) (st : AppState) :
    (preCheck u st).availableUsernames = st.availableUsernames := rfl

theorem afterFetch_availableUsernames (out : Outcome × List LogMessage)
    (ms : Nat) (st : AppState) :
    (afterFetch out ms st).availableUsernames = st.availableUsernames := rfl

theorem throttlePause_availableUsernames (thr : Bool) (st : AppState) :
    (throttlePause thr st).availableUsernames = st.availableUsernames := by
  unfold throttlePause
  split <;> rfl

theorem throttlePause_aborted (thr : Bool) (st : AppState) :
    (throttlePause thr st).aborted = st.aborted := by
  unfold throttlePause
  split <;> rfl

theorem throttlePause_time_ge (thr : Bool) (st : AppState) :
    st.time ≤ (throttlePause thr st).time := by
  unfold throttlePause
  split
  · exact Nat.le_add_right st.time 60000
  · exact Nat.le_refl st.time

theorem throttlePause_curAttempts (thr : Bool) (st : AppState) :
    (throttlePause thr st).curAttempts = st.curAttempts := by
  unfold throttlePause
  split <;> rfl

theorem throttlePause_curAvailable (thr : Bool) (st : AppState) :
    (throttlePause thr st).curAvailable = st.curAvailable := by
  unfold throttlePause
  split <;> rfl

theorem throttlePause_curTaken (thr : Bool) (st : AppState) :
    (throttlePause thr st).curTaken = st.curTaken := by
  unfold throttlePause
  split <;> rfl

/-- The abort signal is monotone in time. -/
theorem sigAbortedAt_mono (abortAt : Option Nat) (ab : Bool) {t1 t2 : Nat}
    (h : t1 ≤ t2) (h1 : sigAbortedAt abortAt ab t1 = true) :
    sigAbortedAt abortAt ab t2 = true := by
  unfold sigAbortedAt at h1 ⊢
  cases abortAt with
  | none => simpa using h1
  | some τ =>
    simp only [Bool.or_eq_true, decide_eq_true_eq] at h1 ⊢
    rcases h1 with hab | hτ
    · exact Or.inl hab
    · exact Or.inr (le_trans hτ h)

/-- The loop only ever appends to `availableUsernames` in the outcome
switch. -/
theorem processOutcome_found_extends (o : Outcome) (u : List Char) (st : AppState) :
    st.availableUsernames <+: (processOutcome o u st).availableUsernames := by
  cases o with
  | available =>
    show st.availableUsernames <+: st.availableUsernames ++ _
    exact isPre_append _ _
  | taken => exact isPre_refl _
  | throttled => exact isPre_refl _
  | error => exact isPre_refl _
  | aborted => exact isPre_refl _

/-- One loop iteration only ever appends to `availableUsernames`. -/
theorem huntIter_found_extends (thr : Bool) (cfg : HuntConfig)
    (abortAt : Option Nat) (st : AppState) (inp : IterationInput) :
    st.availableUsernames
      <+: (huntIter thr cfg abortAt st inp).1.availableUsernames := by
  simp only [huntIter]
  split
  · rw [throttlePause_availableUsernames]
  · split
    · show st.availableUsernames
        <+: (addLog (throttlePause thr st) stopNoCharsText LogType.error).availableUsernames
      rw [addLog_availableUsernames, throttlePause_availableUsernames]
    · split
      · show st.availableUsernames
          <+: (addLog
                (afterFetch
                  (checkUsernameAvailability
                    (generateUsername cfg.excludeNumbers cfg.excl cfg.len inp.rand)
                    inp.fetch)
                  inp.fetchMs
                  (preCheck
                    (generateUsername cfg.excludeNumbers cfg.excl cfg.len inp.rand)
                    (throttlePause thr st)))
                abortedText LogType.info).availableUsernames
        rw [addLog_availableUsernames, afterFetch_availableUsernames,
            preCheck_availableUsernames, throttlePause_availableUsernames]
      · show st.availableUsernames
          <+: (setStats (processOutcome _ _ _)).availableUsernames
        have h := processOutcome_found_extends
          (checkUsernameAvailability
            (generateUsername cfg.excludeNumbers cfg.excl cfg.len inp.rand) inp.fetch).1
          (generateUsername cfg.excludeNumbers cfg.excl cfg.len inp.rand)
        rw [setStats_availableUsernames]
        refine List.IsPrefix.trans ?_ (h _)
        show st.availableUsernames
          <+: (afterFetch
                (checkUsernameAvailability
                  (generateUsername cfg.excludeNumbers cfg.excl cfg.len inp.rand)
                  inp.fetch)
                inp.fetchMs
                (preCheck
                  (generateUsername cfg.excludeNumbers cfg.excl cfg.len inp.rand)
                  (throttlePause thr st))).availableUsernames
        rw [afterFetch_availableUsernames, preCheck_availableUsernames,
            throttlePause_availableUsernames]

/-- The whole loop only ever appends to `availableUsernames`. -/
theorem huntLoop_found_extends (thr : Bool) (cfg : HuntConfig)
    (abortAt : Option Nat) (st : AppState) (script : List IterationInput) :
    st.availableUsernames
      <+: (huntLoop thr cfg abortAt st script).availableUsernames := by
  induction script generalizing st with
  | nil => exact isPre_refl _
  | cons inp rest ih =>
    rw [huntLoop]
    split
    · exact isPre_refl _
    · rcases hit : huntIter thr cfg abortAt st inp with ⟨st2, cont⟩
      have h1 : st.availableUsernames <+: st2.availableUsernames := by
        have h := huntIter_found_extends thr cfg abortAt st inp
        rwa [hit] at h
      cases cont with
      | true => exact h1.trans (ih st2)
      | false => exact h1

theorem huntFinally_availableUsernames (abortAt : Option Nat) (st : AppState) :
    (huntFinally abortAt st).availableUsernames = st.availableUsernames := by
  simp only [huntFinally]
  split <;> rfl

/-! ## Claim theorems for the hunter -/

/-- **C8.** The `availableUsernames` list is append-only and survives across
hunts: hunt initialisation resets the stats and the log but keeps every
previously appended entry, and the loop only ever appends. -/
theorem c8_found_append_only (cfg : HuntConfig) (abortAt : Option Nat)
    (prior : AppState) (script : List IterationInput) :
    (huntInit cfg prior).stats = ⟨0, 0, 0⟩ ∧
      (huntInit cfg prior).logMessages = [⟨startText cfg.len, LogType.info⟩] ∧
      (huntInit cfg prior).availableUsernames = prior.availableUsernames ∧
      prior.availableUsernames
        <+: (huntUsernames cfg abortAt prior script).availableUsernames := by
  refine ⟨rfl, rfl, rfl, ?_⟩
  unfold huntUsernames
  rw [huntFinally_availableUsernames]
  have h := huntLoop_found_extends prior.isThrottled cfg abortAt
    (huntInit cfg prior) script
  exact h

/-- **C3 (amended).** Stopping leaves the stats and the found list unchanged,
clears the throttle flag and fires the abort signal, but unconditionally
appends one more "Hunting stopped by user." event — so it is idempotent on
counters and results, while the stopped event is duplicated by repeated
invocations rather than emitted exactly once. -/
theorem c3_stop_preserves_state (st : AppState) :
    (handleStopHunting st).stats = st.stats ∧
      (handleStopHunting st).availableUsernames = st.availableUsernames ∧
      (handleStopHunting st).isThrottled = false ∧
      (handleStopHunting st).aborted = true ∧
      (handleStopHunting st).logMessages
        = st.logMessages ++ [⟨stoppedText, LogType.info⟩] :=
  ⟨rfl, rfl, rfl, rfl, rfl⟩

/-- **C3 (counterexample).** Invoking stop twice from the initial state
appends the "Hunting stopped by user." event twice: the second stop, on an
already-stopped session, is not free of additional effect, refuting the
claim that the event is emitted exactly once and never duplicated. -/
theorem c3_counterexample :
    ((handleStopHunting (handleStopHunting initialState)).logMessages.count
        (⟨stoppedText, LogType.info⟩ : LogMessage)) = 2 ∧
      (handleStopHunting (handleStopHunting initialState)).logMessages
        ≠ (handleStopHunting initialState).logMessages := by
  decide

/-- **C4.** If the cancellation signal fires only after the remote call
returned (not yet at the start of the iteration, but by the time the call is
done), the loop exits without processing that call's outcome: the
available/taken counters (locals and published stats) are not incremented,
no `AvailableUsername` entry is appended, and the log gains only the
`Checking:` entry, the classifier's own error logs, and the aborted notice —
no `AVAILABLE:` (or taken) event. -/
theorem c4_abort_after_call (thr : Bool) (cfg : HuntConfig)
    (abortAt : Option Nat) (st : AppState) (inp : IterationInput)
    (rest : List IterationInput)
    (hpre : sigAborted abortAt (throttlePause thr st) = false)
    (hpost : sigAbortedAt abortAt st.aborted
        ((throttlePause thr st).time + inp.fetchMs) = true) :
    (huntIter thr cfg abortAt st inp).2 = false ∧
      huntLoop thr cfg abortAt st (inp :: rest)
        = (huntIter thr cfg abortAt st inp).1 ∧
      (huntIter thr cfg abortAt st inp).1.curAvailable = st.curAvailable ∧
      (huntIter thr cfg abortAt st inp).1.curTaken = st.curTaken ∧
      (huntIter thr cfg abortAt st inp).1.stats.available = st.curAvailable ∧
      (huntIter thr cfg abortAt st inp).1.stats.taken = st.curTaken ∧
      (huntIter thr cfg abortAt st inp).1.availableUsernames
        = st.availableUsernames ∧
      (huntIter thr cfg abortAt st inp).1.curAttempts = st.curAttempts + 1 ∧
      (huntIter thr cfg abortAt st inp).1.logMessages
        = (throttlePause thr st).logMessages
            ++ [⟨checkingText
                  (generateUsername cfg.excludeNumbers cfg.excl cfg.len inp.rand),
                 LogType.muted⟩]
            ++ (checkUsernameAvailability
                  (generateUsername cfg.excludeNumbers cfg.excl cfg.len inp.rand)
                  inp.fetch).2
            ++ [⟨abortedText, LogType.info⟩] := by
  have hne := generateUsername_ne_error cfg.excludeNumbers cfg.excl cfg.len inp.rand
  have hcond1 : (thr && sigAborted abortAt (throttlePause thr st)) = false := by
    rw [hpre, Bool.and_false]
  have hentry : sigAborted abortAt st = false := by
    cases hc : sigAborted abortAt st with
    | false => rfl
    | true =>
      exfalso
      rw [sigAborted] at hc
      have hmono := sigAbortedAt_mono abortAt st.aborted
        (throttlePause_time_ge thr st) hc
      rw [sigAborted, throttlePause_aborted] at hpre
      rw [hpre] at hmono
      exact Bool.noConfusion hmono
  have hcond3 : sigAborted abortAt
      (afterFetch
        (checkUsernameAvailability
          (generateUsername cfg.excludeNumbers cfg.excl cfg.len inp.rand) inp.fetch)
        inp.fetchMs
        (preCheck (generateUsername cfg.excludeNumbers cfg.excl cfg.len inp.rand)
          (throttlePause thr st))) = true := by
    rw [sigAborted]
    show sigAbortedAt abortAt (throttlePause thr st).aborted
      ((throttlePause thr st).time + inp.fetchMs) = true
    rw [throttlePause_aborted]
    exact hpost
  have hiter : huntIter thr cfg abortAt st inp
      = (addLog
          (afterFetch
            (checkUsernameAvailability
              (generateUsername cfg.excludeNumbers cfg.excl cfg.len inp.rand)
              inp.fetch)
            inp.fetchMs
            (preCheck (generateUsername cfg.excludeNumbers cfg.excl cfg.len inp.rand)
              (throttlePause thr st)))
          abortedText LogType.info, false) := by
    simp only [huntIter]
    rw [if_neg (by rw [hcond1]; exact Bool.false_ne_true), if_neg hne,
        if_pos hcond3]
  refine ⟨by rw [hiter], ?_, ?_, ?_, ?_, ?_, ?_, ?_, ?_⟩
  · rw [huntLoop, if_neg (by rw [hentry]; exact Bool.false_ne_true), hiter]
  · rw [hiter]
    show (throttlePause thr st).curAvailable = st.curAvailable
    exact throttlePause_curAvailable thr st
  · rw [hiter]
    show (throttlePause thr st).curTaken = st.curTaken
    exact throttlePause_curTaken thr st
  · rw [hiter]
    show (throttlePause thr st).curAvailable = st.curAvailable
    exact throttlePause_curAvailable thr st
  · rw [hiter]
    show (throttlePause thr st).curTaken = st.curTaken
    exact throttlePause_curTaken thr st
  · rw [hiter]
    show (throttlePause thr st).availableUsernames = st.availableUsernames
    exact throttlePause_availableUsernames thr st
  · rw [hiter]
    show (throttlePause thr st).curAttempts + 1 = st.curAttempts + 1
    rw [throttlePause_curAttempts]
  · rw [hiter]
    rfl

theorem c4_witness :
    sigAborted (some 50)
        (throttlePause false initialState) = false ∧
      sigAbortedAt (some 50) initialState.aborted
        ((throttlePause false initialState).time + 100) = true ∧
      ((huntIter false ⟨false, [], 3⟩ (some 50) initialState
          ⟨fun _ => 0, FetchResult.status 404, 100⟩).2 = false ∧
        huntLoop false ⟨false, [], 3⟩ (some 50) initialState
            [⟨fun _ => 0, FetchResult.status 404, 100⟩]
          = (huntIter false ⟨false, [], 3⟩ (some 50) initialState
              ⟨fun _ => 0, FetchResult.status 404, 100⟩).1 ∧
        (huntIter false ⟨false, [], 3⟩ (some 50) initialState
            ⟨fun _ => 0, FetchResult.status 404, 100⟩).1.curAvailable
          = initialState.curAvailable ∧
        (huntIter false ⟨false, [], 3⟩ (some 50) initialState
            ⟨fun _ => 0, FetchResult.status 404, 100⟩).1.curTaken
          = initialState.curTaken ∧
        (huntIter false ⟨false, [], 3⟩ (some 50) initialState
            ⟨fun _ => 0, FetchResult.status 404, 100⟩).1.stats.available
          = initialState.curAvailable ∧
        (huntIter false ⟨false, [], 3⟩ (some 50) initialState
            ⟨fun _ => 0, FetchResult.status 404, 100⟩).1.stats.taken
          = initialState.curTaken ∧
        (huntIter false ⟨false, [], 3⟩ (some 50) initialState
            ⟨fun _ => 0, FetchResult.status 404, 100⟩).1.availableUsernames
          = initialState.availableUsernames ∧
        (huntIter false ⟨false, [], 3⟩ (some 50) initialState
            ⟨fun _ => 0, FetchResult.status 404, 100⟩).1.curAttempts
          = initialState.curAttempts + 1 ∧
        (huntIter false ⟨false, [], 3⟩ (some 50) initialState
            ⟨fun _ => 0, FetchResult.status 404, 100⟩).1.logMessages
          = (throttlePause false initialState).logMessages
              ++ [⟨checkingText (generateUsername false [] 3 (fun _ => 0)),
                   LogType.muted⟩]
              ++ (checkUsernameAvailability (generateUsername false [] 3 (fun _ => 0))
                    (FetchResult.status 404)).2
              ++ [⟨abortedText, LogType.info⟩]) :=
  ⟨by decide, by decide,
   c4_abort_after_call false ⟨false, [], 3⟩ (some 50) initialState
     ⟨fun _ => 0, FetchResult.status 404, 100⟩ [] (by decide) (by decide)⟩

/-- The scripted responses for the C2 run: a throttled (403) response
followed by another check, each remote call taking 100 ms, with no
cancellation, against a hunt started with the throttle flag clear. -/
def c2Script : List IterationInput :=
  [⟨fun _ => 0, .status 403, 100⟩, ⟨fun _ => 0, .status 404, 100⟩]

/-- **C2 (the code at the failing input).** The first check is classified
Throttled and sets the React throttle flag, yet the second check starts at
model time 1600 ms — only the 1.5 s inter-request delay after a 100 ms call —
with no 60 000 ms pause and no pausing event ever logged: the loop's
throttle guard reads the `isThrottled` value captured at hunt start (stale
closure), so the pause branch never runs. -/
theorem c2_no_pause_after_throttle :
    (checkUsernameAvailability (generateUsername false [] 3 (fun _ => 0))
        (FetchResult.status 403)).1 = Outcome.throttled ∧
      (huntUsernames ⟨false, [], 3⟩ none initialState c2Script).checkTimes
        = [0, 1600] ∧
      (huntUsernames ⟨false, [], 3⟩ none initialState c2Script).stats.attempts
        = 2 ∧
      (huntUsernames ⟨false, [], 3⟩ none initialState c2Script).isThrottled
        = true ∧
      (⟨pausingText, LogType.error⟩ : LogMessage)
        ∉ (huntUsernames ⟨false, [], 3⟩ none initialState c2Script).logMessages := by
  decide

/-- **C1.** Against the scripted responses [404, 200, 403, 500, 404] with no
cancellation and no transport failure, the five checks are classified
[Available, Taken, Throttled, TransientError, Available]; the run ends with
attempts 5, availableCount 2, takenCount 1 (all counters reset to 0 at hunt
start), and exactly the two `AvailableUsername` entries of the first and
fifth check are appended, in response order. -/
theorem c1_scripted_run (cfg : HuntConfig) (prior : AppState)
    (r1 r2 r3 r4 r5 : Nat → Nat) (d1 d2 d3 d4 d5 : Nat)
    (hthr : prior.isThrottled = false) :
    (∀ u : List Char,
        (checkUsernameAvailability u (FetchResult.status 404)).1
            = Outcome.available ∧
          (checkUsernameAvailability u (FetchResult.status 200)).1
            = Outcome.taken ∧
          (checkUsernameAvailability u (FetchResult.status 403)).1
            = Outcome.throttled ∧
          (checkUsernameAvailability u (FetchResult.status 500)).1
            = Outcome.error) ∧
      (let final := huntUsernames cfg none prior
          [⟨r1, FetchResult.status 404, d1⟩, ⟨r2, FetchResult.status 200, d2⟩,
           ⟨r3, FetchResult.status 403, d3⟩, ⟨r4, FetchResult.status 500, d4⟩,
           ⟨r5, FetchResult.status 404, d5⟩];
        final.stats.attempts = 5 ∧
          final.stats.available = 2 ∧
          final.stats.taken = 1 ∧
          ∃ t1 t5 : Nat,
            final.availableUsernames
              = prior.availableUsernames
                  ++ [⟨generateUsername cfg.excludeNumbers cfg.excl cfg.len r1, t1⟩,
                      ⟨generateUsername cfg.excludeNumbers cfg.excl cfg.len r5, t5⟩]) := by
  refine ⟨fun u => ⟨rfl, rfl, rfl, rfl⟩, ?_⟩
  simp only [huntUsernames, hthr]
  simp [huntInit, huntFinally, huntLoop, huntIter, throttlePause, preCheck,
        afterFetch, processOutcome, setStats, addLog, sigAborted, sigAbortedAt,
        checkUsernameAvailability, generateUsername_ne_error]

theorem c1_witness :
    initialState.isThrottled = false ∧
      ((∀ u : List Char,
          (checkUsernameAvailability u (FetchResult.status 404)).1
              = Outcome.available ∧
            (checkUsernameAvailability u (FetchResult.status 200)).1
              = Outcome.taken ∧
            (checkUsernameAvailability u (FetchResult.status 403)).1
              = Outcome.throttled ∧
            (checkUsernameAvailability u (FetchResult.status 500)).1
              = Outcome.error) ∧
        (let final := huntUsernames ⟨false, [], 3⟩ none initialState
            [⟨fun _ => 0, FetchResult.status 404, 100⟩,
             ⟨fun _ => 0, FetchResult.status 200, 100⟩,
             ⟨fun _ => 0, FetchResult.status 403, 100⟩,
             ⟨fun _ => 0, FetchResult.status 500, 100⟩,
             ⟨fun _ => 0, FetchResult.status 404, 100⟩];
          final.stats.attempts = 5 ∧
            final.stats.available = 2 ∧
            final.stats.taken = 1 ∧
            ∃ t1 t5 : Nat,
              final.availableUsernames
                = initialState.availableUsernames
                    ++ [⟨generateUsername false [] 3 (fun _ => 0), t1⟩,
                        ⟨generateUsername false [] 3 (fun _ => 0), t5⟩])) :=
  ⟨rfl, c1_scripted_run ⟨false, [], 3⟩ initialState (fun _ => 0) (fun _ => 0)
    (fun _ => 0) (fun _ => 0) (fun _ => 0) 100 100 100 100 100 rfl⟩

end GitHunter
